import Mathlib

/-!
# JSON document builder (src/JSON/JSON.h)

A shallow embedding of the classes `Value`, `Property` and `JSON` of
`src/JSON/JSON.h`, and theorems about the document operations.

Modelling conventions.

* A C++ pointer is an address `Ptr` (a natural number, `nullptr` is 0).  Objects
  that live behind pointers (strings, string vectors, value vectors, nested
  documents, the key-name table) live in an explicit `Heap`.
* `int` is `Int` (no arithmetic is performed on it anywhere in the header),
  `float` is its bit pattern `CFloat`.
* The union `Value::Data` is modelled by its active (last written) member.  The
  bytes of the union that a narrower member (`b`, `i`, `f`) does not cover keep
  the prior payload in the program; they are not represented, and no theorem
  below speaks about them.
* A default-initialised `Value` member holds indeterminate contents; every
  constructor of `Property` therefore receives the indeterminate initial
  contents of its `value` member as an explicit argument `u`.
* A `std::shared_ptr<T>` is modelled by the address it stores (`get()`); the
  use counts kept by the standard library are not modelled.
* A `const T&` parameter is modelled by the value read through the reference.
* A returned `const Value*` is modelled by `Option Value`: `none` is `nullptr`,
  `some v` is a pointer to an element whose contents are `v`.
-/

set_option linter.dupNamespace false

namespace JSON

/-- Address of an object; `nullptr` is address 0. -/
abbrev Ptr := Nat

/-- The null pointer (`nullptr`, `NULL`). -/
def nullptr : Ptr := 0

/-- Bit pattern of a C++ `float`. -/
structure CFloat where
  bits : Nat
  deriving DecidableEq, Repr

/-- Discriminator `Value::Type`. -/
inductive Value.Type_ where
  | BOOL
  | INT
  | FLOAT
  | STRING
  | OBJECT
  | ARRAY_STRING
  | ARRAY
  | EMPTY
  deriving DecidableEq, Repr

/-- Union `Value::Data`, represented by its active member.  The pointer members
are the widest members and cover the whole union; the bytes that `b`, `i` or `f`
do not cover are not represented. -/
inductive Value.Data where
  | b (v : Bool)
  | i (v : Int)
  | f (v : CFloat)
  | s (v : Ptr)
  | as (v : Ptr)
  | a (v : Ptr)
  | o (v : Ptr)
  deriving DecidableEq, Repr

/-- Class `Value`: a discriminator and the union. -/
structure Value where
  type : Value.Type_
  data : Value.Data
  deriving DecidableEq, Repr

/-- Class `Property`: an integer key and a `Value`. -/
structure Property where
  key : Int
  value : Value
  deriving DecidableEq, Repr

/-- Class `JSON`: the property sequence, the three pools, the key-name table
pointer and the public `binary` slot. -/
structure JSON where
  properties : List Property
  objects : List Ptr
  strings : List Ptr
  arrays : List Ptr
  keymap : Ptr
  binary : Ptr
  deriving DecidableEq, Repr

/-- Objects that live behind pointers. -/
inductive Obj where
  | str (x : String)
  | strArray (xs : List String)
  | valArray (xs : List Value)
  | json (d : JSON)
  | table (t : List (List String))
  deriving DecidableEq, Repr

/-- Memory: the live objects with their addresses (the first cell with a given
address is the object at that address). -/
structure Heap where
  cells : List (Ptr × Obj)
  deriving DecidableEq, Repr

/-- Object at address `q`, if one is live there. -/
def Heap.read (h : Heap) (q : Ptr) : Option Obj :=
  match h.cells.find? (fun c => c.1 == q) with
  | some c => some c.2
  | none => none

/-- An address above every live address (and never `nullptr`). -/
def Heap.fresh (h : Heap) : Ptr :=
  (h.cells.map (fun c => c.1)).foldr max 0 + 1

/-- Expression `new T(x)`: places `x` at an address where nothing is live. -/
def Heap.alloc (h : Heap) (x : Obj) : Ptr × Heap :=
  (h.fresh, { cells := (h.fresh, x) :: h.cells })

/-- Assignment through a pointer: the object at `q` becomes `x`. -/
def Heap.write (h : Heap) (q : Ptr) (x : Obj) : Heap :=
  { cells := (q, x) :: h.cells.filter (fun c => c.1 != q) }

/-- Destruction of the object at `q`. -/
def Heap.free (h : Heap) (q : Ptr) : Heap :=
  { cells := h.cells.filter (fun c => c.1 != q) }

/-! ## Value -/

/-- Method `float getFloat() const { return data.f; }`; `none` when `f` is not the
active member. -/
def Value.getFloat (v : Value) : Option CFloat :=
  match v.data with
  | .f x => some x
  | _ => none

/-- Method `int getInt() const { return data.i; }`. -/
def Value.getInt (v : Value) : Option Int :=
  match v.data with
  | .i x => some x
  | _ => none

/-- Method `bool getBool() const { return data.b; }`. -/
def Value.getBool (v : Value) : Option Bool :=
  match v.data with
  | .b x => some x
  | _ => none

/-- Method `getStringArray() const { return *data.as; }`. -/
def Value.getStringArray (h : Heap) (v : Value) : Option (List String) :=
  match v.data with
  | .as q =>
    match h.read q with
    | some (.strArray xs) => some xs
    | _ => none
  | _ => none

/-- Method `getArray() const { return *data.a; }`. -/
def Value.getArray (h : Heap) (v : Value) : Option (List Value) :=
  match v.data with
  | .a q =>
    match h.read q with
    | some (.valArray xs) => some xs
    | _ => none
  | _ => none

/-- Method `getString() const { return *data.s; }`. -/
def Value.getString (h : Heap) (v : Value) : Option String :=
  match v.data with
  | .s q =>
    match h.read q with
    | some (.str x) => some x
    | _ => none
  | _ => none

/-- Method `getObject() const { return *data.o; }`. -/
def Value.getObject (h : Heap) (v : Value) : Option JSON :=
  match v.data with
  | .o q =>
    match h.read q with
    | some (.json d) => some d
    | _ => none
  | _ => none

def Value.isObject (v : Value) : Bool := v.type == .OBJECT

def Value.isArray (v : Value) : Bool := v.type == .ARRAY

def Value.isArrayString (v : Value) : Bool := v.type == .ARRAY_STRING

def Value.isString (v : Value) : Bool := v.type == .STRING

/-- Method `void setFloat(float v) { data.f = v; type = Type::FLOAT; }`.  The
bytes of the union outside `f` are not represented. -/
def Value.setFloat (self : Value) (v : CFloat) : Value :=
  { { self with data := .f v } with type := .FLOAT }

/-- Method `void setInt(int v) { data.i = v; type = Type::INT; }`.  The bytes
of the union outside `i` are not represented. -/
def Value.setInt (self : Value) (v : Int) : Value :=
  { { self with data := .i v } with type := .INT }

/-- Method `void setBool(bool v) { data.b = v; type = Type::BOOL; }`.  The
bytes of the union outside `b` are not represented. -/
def Value.setBool (self : Value) (v : Bool) : Value :=
  { { self with data := .b v } with type := .BOOL }

/-- Method `void setNull() { type = Type::EMPTY; }`: the union is not written. -/
def Value.setNull (self : Value) : Value :=
  { self with type := .EMPTY }

def Value.setArray (self : Value) (v : Ptr) : Value :=
  { { self with data := .a v } with type := .ARRAY }

def Value.setStringArray (self : Value) (v : Ptr) : Value :=
  { { self with data := .as v } with type := .ARRAY_STRING }

def Value.setString (self : Value) (v : Ptr) : Value :=
  { { self with data := .s v } with type := .STRING }

def Value.setObject (self : Value) (v : Ptr) : Value :=
  { { self with data := .o v } with type := .OBJECT }

/-! ## Property

Each constructor receives `u`, the indeterminate initial contents of the member
`value`, then runs the body of the C++ constructor. -/

/-- Constructor `Property(int p, Value v) { key = p; value = v; }`. -/
def Property.ofValue (_u : Value) (p : Int) (v : Value) : Property :=
  { key := p, value := v }

/-- Constructor `Property(int p, int v) { key = p; value.setInt(v); }`. -/
def Property.ofInt (u : Value) (p : Int) (v : Int) : Property :=
  { key := p, value := u.setInt v }

/-- Constructor `Property(int p, float v)`. -/
def Property.ofFloat (u : Value) (p : Int) (v : CFloat) : Property :=
  { key := p, value := u.setFloat v }

/-- Constructor `Property(int p, bool v)`. -/
def Property.ofBool (u : Value) (p : Int) (v : Bool) : Property :=
  { key := p, value := u.setBool v }

/-- Constructor `Property(int p, std::string* v)`. -/
def Property.ofString (u : Value) (p : Int) (v : Ptr) : Property :=
  { key := p, value := u.setString v }

/-- Constructor `Property(int p, std::vector<std::string>* v)`. -/
def Property.ofStringArray (u : Value) (p : Int) (v : Ptr) : Property :=
  { key := p, value := u.setStringArray v }

/-- Constructor `Property(int p, JSON* v)`. -/
def Property.ofObject (u : Value) (p : Int) (v : Ptr) : Property :=
  { key := p, value := u.setObject v }

/-- Constructor `Property(int p) { key = p; value.setNull(); }`. -/
def Property.ofNull (u : Value) (p : Int) : Property :=
  { key := p, value := u.setNull }

def Property.Key (self : Property) : Int := self.key

def Property.Get (self : Property) : Value := self.value

/-! ## JSON (the document) -/

/-- Constructor `JSON(map) : keymap(map) {}`: the vectors start empty and
`binary` has its default member initialiser `NULL`. -/
def JSON.new (map : Ptr) : JSON :=
  { properties := [], objects := [], strings := [], arrays := [],
    keymap := map, binary := nullptr }

/-- Method `clear()`: clears `properties`, `objects`, `strings` and `arrays`. -/
def JSON.clear (self : JSON) : JSON :=
  { self with properties := [], objects := [], strings := [], arrays := [] }

def JSON.getProperties (self : JSON) : List Property := self.properties

/-- Loop of `getValue`: `for (auto& o : properties) if (o.Key() == p) return &o.Get();`
followed by `return nullptr;`. -/
def JSON.getValueLoop (p : Int) : List Property → Option Value
  | [] => none
  | o :: rest => if o.Key = p then some o.Get else getValueLoop p rest

/-- Method `const Value* getValue(int p) const`. -/
def JSON.getValue (self : JSON) (p : Int) : Option Value :=
  JSON.getValueLoop p self.properties

/-- Member `const Value* operator[](int p) { return getValue(p); }`. -/
def JSON.operator_subscript (self : JSON) (p : Int) : Option Value :=
  self.getValue p

/-- Overload `void Add(int p, int v)`. -/
def JSON.Add_int (self : JSON) (u : Value) (p : Int) (v : Int) : JSON :=
  { self with properties := self.properties ++ [Property.ofInt u p v] }

/-- Overload `void Add(int p, float v)`. -/
def JSON.Add_float (self : JSON) (u : Value) (p : Int) (v : CFloat) : JSON :=
  { self with properties := self.properties ++ [Property.ofFloat u p v] }

/-- Overload `void Add(int p, bool v)`. -/
def JSON.Add_bool (self : JSON) (u : Value) (p : Int) (v : Bool) : JSON :=
  { self with properties := self.properties ++ [Property.ofBool u p v] }

/-- Overload `void Add(int p, std::shared_ptr<JSON>& v)`:
`objects.push_back(v); properties.push_back(Property(p, (JSON*)v.get()));`. -/
def JSON.Add_object (self : JSON) (u : Value) (p : Int) (v : Ptr) : JSON :=
  { { self with objects := self.objects ++ [v] } with
    properties := self.properties ++ [Property.ofObject u p v] }

/-- Overload `void Add(int p, const std::string& v)`:
`strings.push_back(std::shared_ptr<std::string>(new std::string(v)));`
`properties.push_back(Property(p, (std::string*)strings.back().get()));`. -/
def JSON.Add_string (h : Heap) (self : JSON) (u : Value) (p : Int) (v : String) :
    Heap × JSON :=
  let r := h.alloc (.str v)
  let strings1 := self.strings ++ [r.1]
  (r.2, { { self with strings := strings1 } with
          properties :=
            self.properties ++ [Property.ofString u p (strings1.getLast (by simp [strings1]))] })

/-- Overload `void Add(int p)`. -/
def JSON.Add_null (self : JSON) (u : Value) (p : Int) : JSON :=
  { self with properties := self.properties ++ [Property.ofNull u p] }

/-- Overload `void Add(int p, Value v)`. -/
def JSON.Add_value (self : JSON) (u : Value) (p : Int) (v : Value) : JSON :=
  { self with properties := self.properties ++ [Property.ofValue u p v] }

/-- Overload `void Add(int p, const std::string* v)` (memory managed outside). -/
def JSON.Add_string_ptr (self : JSON) (u : Value) (p : Int) (v : Ptr) : JSON :=
  { self with properties := self.properties ++ [Property.ofString u p v] }

/-- Overload `void Add(int p, const std::vector<std::string>* v)`. -/
def JSON.Add_string_array_ptr (self : JSON) (u : Value) (p : Int) (v : Ptr) : JSON :=
  { self with properties := self.properties ++ [Property.ofStringArray u p v] }

/-- Second argument of a call `Add(p, ...)`, one constructor per overload. -/
inductive AddArg where
  | int (v : Int)
  | float (v : CFloat)
  | bool (v : Bool)
  | object (v : Ptr)
  | string (v : String)
  | null
  | value (v : Value)
  | string_ptr (v : Ptr)
  | string_array_ptr (v : Ptr)
  deriving DecidableEq, Repr

/-- A call `Add(p, ...)`: dispatch to the overload selected by the argument. -/
def JSON.Add (h : Heap) (self : JSON) (u : Value) (p : Int) : AddArg → Heap × JSON
  | .int v => (h, self.Add_int u p v)
  | .float v => (h, self.Add_float u p v)
  | .bool v => (h, self.Add_bool u p v)
  | .object v => (h, self.Add_object u p v)
  | .string v => JSON.Add_string h self u p v
  | .null => (h, self.Add_null u p)
  | .value v => (h, self.Add_value u p v)
  | .string_ptr v => (h, self.Add_string_ptr u p v)
  | .string_array_ptr v => (h, self.Add_string_array_ptr u p v)

/-- One call of `Add`: the indeterminate contents met by the `Property`
temporary, the key and the argument. -/
structure AddCall where
  u : Value
  p : Int
  arg : AddArg
  deriving DecidableEq, Repr

/-- A sequence of `Add` calls, executed from left to right. -/
def JSON.AddAll (h : Heap) (self : JSON) : List AddCall → Heap × JSON
  | [] => (h, self)
  | c :: rest =>
    let r := JSON.Add h self c.u c.p c.arg
    AddAll r.1 r.2 rest

/-- A public operation on a document: a call of `Add`, an assignment to the
public member `binary`, or `clear()`. -/
inductive Op where
  | add (c : AddCall)
  | set_binary (q : Ptr)
  | clear
  deriving DecidableEq, Repr

/-- Effect of one public operation. -/
def JSON.step (h : Heap) (self : JSON) : Op → Heap × JSON
  | .add c => JSON.Add h self c.u c.p c.arg
  | .set_binary q => (h, { self with binary := q })
  | .clear => (h, self.clear)

/-- A sequence of public operations, executed from left to right. -/
def JSON.run (h : Heap) (self : JSON) : List Op → Heap × JSON
  | [] => (h, self)
  | op :: rest =>
    let r := JSON.step h self op
    run r.1 r.2 rest

/-- A call of one of the setters of `Value`, with its argument. -/
inductive Setter where
  | setFloat (v : CFloat)
  | setInt (v : Int)
  | setBool (v : Bool)
  | setNull
  | setArray (v : Ptr)
  | setStringArray (v : Ptr)
  | setString (v : Ptr)
  | setObject (v : Ptr)
  deriving DecidableEq, Repr

/-- Effect of a setter call on a `Value`. -/
def Value.call (self : Value) : Setter → Value
  | .setFloat v => self.setFloat v
  | .setInt v => self.setInt v
  | .setBool v => self.setBool v
  | .setNull => self.setNull
  | .setArray v => self.setArray v
  | .setStringArray v => self.setStringArray v
  | .setString v => self.setString v
  | .setObject v => self.setObject v

/-- A sequence of setter calls on one `Value`, executed from left to right. -/
def Value.calls (self : Value) (ss : List Setter) : Value :=
  ss.foldl Value.call self

/-- A call of a public member function of `JSON`. -/
inductive MemberOp where
  | Add (c : AddCall)
  | getValue (p : Int)
  | subscript (p : Int)
  | getProperties
  | clear
  deriving DecidableEq, Repr

/-- Effect of a member call on the memory and the document.  `getValue` and
`getProperties` are `const` members and `operator[]` only calls `getValue`:
they compute their result and write nothing. -/
def JSON.member (h : Heap) (self : JSON) : MemberOp → Heap × JSON
  | .Add c => JSON.Add h self c.u c.p c.arg
  | .getValue _ => (h, self)
  | .subscript _ => (h, self)
  | .getProperties => (h, self)
  | .clear => (h, self.clear)

/-- A sequence of member calls, executed from left to right. -/
def JSON.members (h : Heap) (self : JSON) : List MemberOp → Heap × JSON
  | [] => (h, self)
  | op :: rest =>
    let r := JSON.member h self op
    members r.1 r.2 rest

/-- The `Add` calls made since the last `clear()` (or since construction), given
those made before the operation. -/
def Op.since_clear (acc : List AddCall) : Op → List AddCall
  | .add c => acc ++ [c]
  | .set_binary _ => acc
  | .clear => []

/-- The `Add` calls of a sequence of operations made after its last `clear()`. -/
def Op.adds_since_clear (ops : List Op) : List AddCall :=
  ops.foldl Op.since_clear []

/-- Whether a call goes to the owned-copy overload `Add(int, const std::string&)`. -/
def AddCall.is_owned_string (c : AddCall) : Bool :=
  match c.arg with
  | .string _ => true
  | _ => false

/-- Whether a call goes to the overload `Add(int, std::shared_ptr<JSON>&)`. -/
def AddCall.is_shared_handle (c : AddCall) : Bool :=
  match c.arg with
  | .object _ => true
  | _ => false

/-- The pool invariant of a document `D` whose `Add` calls since the last
`clear()` are `acc`. -/
def JSON.PoolInv (D : JSON) (acc : List AddCall) : Prop :=
  D.arrays = []
  ∧ D.strings.length = acc.countP AddCall.is_owned_string
  ∧ D.objects.length = acc.countP AddCall.is_shared_handle
  ∧ D.objects.length + D.strings.length ≤ D.properties.length
  ∧ (∀ q ∈ D.strings, ∃ x ∈ D.properties, x.Get.isString = true ∧ x.Get.data = .s q)
  ∧ (∀ q ∈ D.objects, ∃ x ∈ D.properties, x.Get.isObject = true ∧ x.Get.data = .o q)

/-! ## Text serialization

The header only declares `Value::to_string`; its body and the serialization of a
document are not part of `JSON.h`.  They are modelled from section 4.4 of the
specification, with the conventions that the specification leaves open taken as
parameters. -/

/-- Modelled from the spec: the conventions of section 4.4 that the specification
leaves to the implementer and that the header does not fix (the body of
`to_string` is missing): the text of a float, the escape sequence of a control
character, which candidate name of a mapped key is used, and the name used for a
key when the table is absent or has no candidate for it. -/
structure Conventions where
  float_text : CFloat → String
  control_text : Char → String
  choose : List String → String
  fallback : Int → String

/-- Modelled from the spec: standard JSON escaping of one character of a string
(quote, backslash, control characters); the body of `to_string` is missing. -/
def escape_char (cv : Conventions) (c : Char) : String :=
  if c = Char.ofNat 34 then String.mk [Char.ofNat 92, Char.ofNat 34]
  else if c = Char.ofNat 92 then String.mk [Char.ofNat 92, Char.ofNat 92]
  else if c.toNat < 32 then cv.control_text c
  else String.mk [c]

/-- Modelled from the spec: a quoted JSON string with standard JSON escaping; the
body of `to_string` is missing. -/
def quote (cv : Conventions) (x : String) : String :=
  String.mk [Char.ofNat 34] ++ String.join (x.toList.map (escape_char cv))
    ++ String.mk [Char.ofNat 34]

/-- Modelled from the spec: elements comma-separated inside `[ ]`; the body of
`to_string` is missing. -/
def array_text (ts : List String) : String :=
  "[" ++ ",".intercalate ts ++ "]"

/-- Modelled from the spec: members comma-separated inside braces, with no
pretty-printing; the body of the document serializer is missing. -/
def object_text (ms : List String) : String :=
  "\x7b" ++ ",".intercalate ms ++ "\x7d"

/-- The texts of all elements, when every element has one. -/
def all_some : List (Option String) → Option (List String)
  | [] => some []
  | none :: _ => none
  | some t :: rest => (all_some rest).map (fun ts => t :: ts)

/-- Modelled from the spec: resolution of an integer key to a name through the
key-name table, a vector indexed by the key whose entries are the candidate
names; the fallback is used when the table is absent or holds no candidate for
the key.  The body of the document serializer is missing. -/
def key_name (cv : Conventions) (table : Option (List (List String))) (k : Int) : String :=
  match table with
  | none => cv.fallback k
  | some t =>
    if k < 0 then cv.fallback k
    else
      match t[k.toNat]? with
      | some (c :: cs) => cv.choose (c :: cs)
      | _ => cv.fallback k

/-- The key-name table bound to a document, when `keymap` points to one. -/
def JSON.table (h : Heap) (self : JSON) : Option (List (List String)) :=
  match h.read self.keymap with
  | some (.table t) => some t
  | _ => none

/-- Modelled from the spec: a document rendered as a JSON object whose members
come from its property sequence in insertion order, each as the quoted resolved
name, a colon and the text of the value given by `value_text`.  The body of the
document serializer is missing. -/
def JSON.render (cv : Conventions) (h : Heap) (value_text : Value → Option String)
    (self : JSON) : Option String :=
  (all_some (self.properties.map (fun x =>
    (value_text x.Get).map (fun t =>
      quote cv (key_name cv (self.table h) x.Key) ++ ":" ++ t)))).map object_text

/-- Modelled from the spec: `Value::to_string`, whose body is missing, after the
rules of section 4.4.  `fuel` bounds the nesting depth that is followed; `none`
is returned when it is exhausted or when a pointer does not lead to an object of
the kind of the Value. -/
def Value.to_string (cv : Conventions) (h : Heap) : Nat → Value → Option String
  | 0, _ => none
  | fuel + 1, v =>
    match v.type with
    | .BOOL => v.getBool.map (fun b => if b then "true" else "false")
    | .INT => v.getInt.map (fun i => toString i)
    | .FLOAT => v.getFloat.map cv.float_text
    | .STRING => (v.getString h).map (quote cv)
    | .EMPTY => some "null"
    | .ARRAY_STRING => (v.getStringArray h).map (fun xs => array_text (xs.map (quote cv)))
    | .ARRAY =>
      (v.getArray h).bind (fun xs =>
        (all_some (xs.map (Value.to_string cv h fuel))).map array_text)
    | .OBJECT =>
      (v.getObject h).bind (fun d => JSON.render cv h (Value.to_string cv h fuel) d)

/-- Modelled from the spec: serialization of a document (the body is missing):
the JSON object of its properties, values rendered by `Value::to_string`. -/
def JSON.to_string (cv : Conventions) (h : Heap) (fuel : Nat) (self : JSON) : Option String :=
  JSON.render cv h (Value.to_string cv h fuel) self

/-- The overload selected by a call `Add(p, "...")` whose argument is a string
literal.  The argument has type `const char[N]`.  Of the overloads of `Add` only
`Add(int, bool)` (array-to-pointer conversion followed by a boolean conversion,
a standard conversion sequence) and `Add(int, const std::string&)` (a
user-defined conversion) are viable, and overload resolution prefers the
standard conversion sequence.  The call therefore runs `Add(int, bool)`, with
`true` because the address of a literal is not null; the content of the literal
is not used. -/
def AddArg.of_literal (_content : String) : AddArg := .bool true

/-- The calls `Add(1, true)`, `Add(2, 42)`, `Add(3, "hi")` of the end-to-end
example, each with the indeterminate contents it meets. -/
def example_calls (u1 u2 u3 : Value) : List AddCall :=
  [{ u := u1, p := 1, arg := .bool true }, { u := u2, p := 2, arg := .int 42 },
   { u := u3, p := 3, arg := AddArg.of_literal "hi" }]

/-- The same calls with the third argument a `std::string` of content "hi", which
selects the overload `Add(int, const std::string&)`. -/
def example_calls_std_string (u1 u2 u3 : Value) : List AddCall :=
  [{ u := u1, p := 1, arg := .bool true }, { u := u2, p := 2, arg := .int 42 },
   { u := u3, p := 3, arg := .string "hi" }]

/-- Conventions used by the instances: first candidate, decimal key as fallback. -/
def ex_conventions : Conventions :=
  { float_text := fun x => toString x.bits,
    control_text := fun _ => "?",
    choose := fun cs => cs.headD "",
    fallback := fun k => toString k }

/-- A heap holding the table of the end-to-end example at address 4. -/
def ex_table_heap : Heap :=
  { cells := [(4, .table [[], ["ok"], ["n"], ["s"]])] }

/-! ## Example inputs used by the instances below -/

/-- Some indeterminate contents of a `Value`. -/
def ex_u : Value := { type := .ARRAY, data := .a 77 }

/-- A heap in which the caller owns a string at address 1 and a string vector at
address 2, and the key-name table lives at address 9. -/
def ex_heap : Heap :=
  { cells := [(1, .str "abc"), (2, .strArray ["x", "y"]), (9, .table [["zero"], ["one"]])] }

/-- A document bound to the table at address 9 that already holds the keys
2 and 3 (3 twice). -/
def ex_doc : JSON :=
  (((JSON.new 9).Add_int ex_u 2 5).Add_string_ptr ex_u 3 1).Add_bool ex_u 3 true

/-! ## Lemmas on the memory model -/

theorem Heap.read_cons (q a : Ptr) (x : Obj) (cs : List (Ptr × Obj)) :
    Heap.read { cells := (a, x) :: cs } q
      = if a = q then some x else Heap.read { cells := cs } q := by
  unfold Heap.read
  by_cases hq : a = q
  · have hb : (a == q) = true := by simpa using hq
    simp [List.find?_cons, hb, hq]
  · have hb : (a == q) = false := by simpa using hq
    simp [List.find?_cons, hb, hq]

theorem Heap.le_foldr_max (cs : List (Ptr × Obj)) (c : Ptr × Obj) (hc : c ∈ cs) :
    c.1 ≤ (cs.map (fun c => c.1)).foldr max 0 := by
  induction cs with
  | nil => cases hc
  | cons d ds ih =>
    simp only [List.map_cons, List.foldr_cons]
    rcases List.mem_cons.mp hc with rfl | hmem
    · exact le_max_left _ _
    · exact le_trans (ih hmem) (le_max_right _ _)

theorem Heap.read_none_of_not_mem (h : Heap) (q : Ptr)
    (hq : ∀ c ∈ h.cells, c.1 ≠ q) : h.read q = none := by
  unfold Heap.read
  have : h.cells.find? (fun c => c.1 == q) = none := by
    rw [List.find?_eq_none]
    intro c hc
    simpa using hq c hc
  rw [this]

theorem Heap.mem_of_read_some (h : Heap) (q : Ptr) (x : Obj) (hx : h.read q = some x) :
    ∃ c ∈ h.cells, c.1 = q := by
  by_contra hne
  push_neg at hne
  rw [Heap.read_none_of_not_mem h q hne] at hx
  cases hx

/-- Nothing is live at the address chosen by `new`. -/
theorem Heap.read_fresh (h : Heap) : h.read h.fresh = none := by
  apply Heap.read_none_of_not_mem
  intro c hc heq
  have hle := Heap.le_foldr_max h.cells c hc
  unfold Heap.fresh at heq
  rw [heq] at hle
  exact Nat.not_succ_le_self _ hle

/-- The address chosen by `new` differs from every live address. -/
theorem Heap.fresh_ne_of_read (h : Heap) (q : Ptr) (x : Obj) (hx : h.read q = some x) :
    h.fresh ≠ q := by
  intro heq
  rw [← heq, Heap.read_fresh] at hx
  cases hx

theorem Heap.read_alloc_self (h : Heap) (x : Obj) :
    (h.alloc x).2.read (h.alloc x).1 = some x := by
  simp [Heap.alloc, Heap.read_cons]

theorem Heap.read_alloc_of_ne (h : Heap) (x : Obj) (q : Ptr) (hq : h.fresh ≠ q) :
    (h.alloc x).2.read q = h.read q := by
  simp [Heap.alloc, Heap.read_cons, hq]

/-- Allocation leaves every live object where it is. -/
theorem Heap.read_alloc_of_read (h : Heap) (x y : Obj) (q : Ptr) (hy : h.read q = some y) :
    (h.alloc x).2.read q = some y := by
  rw [Heap.read_alloc_of_ne h x q (Heap.fresh_ne_of_read h q y hy), hy]

theorem Heap.find_filter_ne (cs : List (Ptr × Obj)) (a q : Ptr) (hq : a ≠ q) :
    (cs.filter (fun c => c.1 != a)).find? (fun c => c.1 == q)
      = cs.find? (fun c => c.1 == q) := by
  induction cs with
  | nil => rfl
  | cons d ds ih =>
    by_cases hd : d.1 = a
    · have hdq : ¬ d.1 = q := fun e => hq (hd ▸ e)
      have hb1 : (d.1 != a) = false := by simpa using hd
      have hb2 : (d.1 == q) = false := by simpa using hdq
      rw [List.filter_cons, List.find?_cons, hb1, hb2]
      simpa using ih
    · have hb1 : (d.1 != a) = true := by simpa using hd
      rw [List.filter_cons, hb1]
      simp only [if_true, List.find?_cons]
      rw [ih]

theorem Heap.read_write_of_ne (h : Heap) (a q : Ptr) (x : Obj) (hq : a ≠ q) :
    (h.write a x).read q = h.read q := by
  unfold Heap.write
  rw [Heap.read_cons, if_neg hq]
  unfold Heap.read
  rw [Heap.find_filter_ne h.cells a q hq]

theorem Heap.read_free_of_ne (h : Heap) (a q : Ptr) (hq : a ≠ q) :
    (h.free a).read q = h.read q := by
  unfold Heap.free Heap.read
  rw [Heap.find_filter_ne h.cells a q hq]

/-! ## Lemmas on lookup -/

theorem JSON.getValueLoop_append (p : Int) (xs ys : List Property) :
    JSON.getValueLoop p (xs ++ ys)
      = match JSON.getValueLoop p xs with
        | some v => some v
        | none => JSON.getValueLoop p ys := by
  induction xs with
  | nil => simp [JSON.getValueLoop]
  | cons x xs ih =>
    by_cases hx : x.Key = p
    · simp [JSON.getValueLoop, hx]
    · simp [JSON.getValueLoop, hx, ih]

theorem JSON.getValueLoop_eq_none_iff (p : Int) (xs : List Property) :
    JSON.getValueLoop p xs = none ↔ ∀ x ∈ xs, x.Key ≠ p := by
  induction xs with
  | nil => simp [JSON.getValueLoop]
  | cons x xs ih =>
    by_cases hx : x.Key = p
    · simp [JSON.getValueLoop, hx]
    · simp [JSON.getValueLoop, hx, ih]

/-- Lookup of a key that is new to the sequence finds the appended property. -/
theorem JSON.getValueLoop_append_new (p : Int) (xs : List Property) (y : Property)
    (hxs : ∀ x ∈ xs, x.Key ≠ p) (hy : y.Key = p) :
    JSON.getValueLoop p (xs ++ [y]) = some y.Get := by
  rw [JSON.getValueLoop_append, (JSON.getValueLoop_eq_none_iff p xs).mpr hxs]
  simp [JSON.getValueLoop, hy]

/-- Lookup of a key that is already found is not affected by appending. -/
theorem JSON.getValueLoop_append_old (p : Int) (xs ys : List Property) (v : Value)
    (hv : JSON.getValueLoop p xs = some v) :
    JSON.getValueLoop p (xs ++ ys) = some v := by
  rw [JSON.getValueLoop_append, hv]

/-! ## Lemmas on the owned-copy overload -/

theorem JSON.Add_string_heap (h : Heap) (D : JSON) (u : Value) (p : Int) (v : String) :
    (JSON.Add_string h D u p v).1 = (h.alloc (.str v)).2 := rfl

theorem JSON.Add_string_doc (h : Heap) (D : JSON) (u : Value) (p : Int) (v : String) :
    (JSON.Add_string h D u p v).2
      = { { D with strings := D.strings ++ [h.fresh] } with
          properties := D.properties ++ [Property.ofString u p h.fresh] } := by
  simp [JSON.Add_string, Heap.alloc]

/-- The string read through the property appended by the owned-copy overload. -/
theorem JSON.getString_Add_string (h : Heap) (u : Value) (p : Int) (v : String) :
    (Property.ofString u p h.fresh).Get.getString (h.alloc (.str v)).2 = some v := by
  have hr := Heap.read_alloc_self h (.str v)
  simp only [Heap.alloc] at hr
  simp [Property.ofString, Property.Get, Value.setString, Value.getString, Heap.alloc, hr]

/-! ## Lemmas on `Add` -/

/-- Every overload appends exactly one property, and its key is the given key. -/
theorem JSON.Add_properties (h : Heap) (D : JSON) (u : Value) (p : Int) (arg : AddArg) :
    ∃ x : Property, x.Key = p
      ∧ (JSON.Add h D u p arg).2.properties = D.properties ++ [x] := by
  cases arg with
  | int v => exact ⟨Property.ofInt u p v, rfl, rfl⟩
  | float v => exact ⟨Property.ofFloat u p v, rfl, rfl⟩
  | bool v => exact ⟨Property.ofBool u p v, rfl, rfl⟩
  | object v => exact ⟨Property.ofObject u p v, rfl, rfl⟩
  | string v =>
    refine ⟨Property.ofString u p h.fresh, rfl, ?_⟩
    show (JSON.Add_string h D u p v).2.properties = _
    rw [JSON.Add_string_doc]
  | null => exact ⟨Property.ofNull u p, rfl, rfl⟩
  | value v => exact ⟨Property.ofValue u p v, rfl, rfl⟩
  | string_ptr v => exact ⟨Property.ofString u p v, rfl, rfl⟩
  | string_array_ptr v => exact ⟨Property.ofStringArray u p v, rfl, rfl⟩

/-- No overload writes `keymap` or `binary`. -/
theorem JSON.Add_keymap_binary (h : Heap) (D : JSON) (u : Value) (p : Int) (arg : AddArg) :
    (JSON.Add h D u p arg).2.keymap = D.keymap
      ∧ (JSON.Add h D u p arg).2.binary = D.binary := by
  cases arg with
  | string v =>
    show (JSON.Add_string h D u p v).2.keymap = _ ∧ (JSON.Add_string h D u p v).2.binary = _
    rw [JSON.Add_string_doc]
    exact ⟨rfl, rfl⟩
  | _ => exact ⟨rfl, rfl⟩

/-- Keys after a sequence of `Add` calls: the old keys, then the keys of the
calls in call order. -/
theorem JSON.AddAll_keys (calls : List AddCall) :
    ∀ (h : Heap) (D : JSON),
      (JSON.AddAll h D calls).2.properties.map Property.Key
        = D.properties.map Property.Key ++ calls.map AddCall.p := by
  induction calls with
  | nil => intro h D; simp [JSON.AddAll]
  | cons c rest ih =>
    intro h D
    obtain ⟨x, hx, hprops⟩ := JSON.Add_properties h D c.u c.p c.arg
    simp only [JSON.AddAll, List.map_cons]
    rw [ih, hprops]
    simp [hx]

/-- No public operation rebinds `keymap`. -/
theorem JSON.run_keymap (ops : List Op) :
    ∀ (h : Heap) (D : JSON), (JSON.run h D ops).2.keymap = D.keymap := by
  induction ops with
  | nil => intro h D; rfl
  | cons op rest ih =>
    intro h D
    simp only [JSON.run]
    rw [ih]
    cases op with
    | add c => exact (JSON.Add_keymap_binary h D c.u c.p c.arg).1
    | set_binary q => rfl
    | clear => rfl

/-! ## C1 -/

/-- C1: for every document `D` and key `k` that does not occur among the
properties of `D`, after `D.Add(k, v)` through any of the nine overloads
`getValue(k)` is non-null and points to a Value of the kind of `v` whose payload
is `v` (for the owned-copy overload: a string whose content equals `v`). -/
theorem C1_getValue_after_Add (h : Heap) (D : JSON) (u : Value) (k : Int)
    (hk : ∀ x ∈ D.getProperties, x.Key ≠ k) :
    (∀ v : Int, ∃ w, (D.Add_int u k v).getValue k = some w
        ∧ w.type = .INT ∧ w.getInt = some v)
    ∧ (∀ v : CFloat, ∃ w, (D.Add_float u k v).getValue k = some w
        ∧ w.type = .FLOAT ∧ w.getFloat = some v)
    ∧ (∀ v : Bool, ∃ w, (D.Add_bool u k v).getValue k = some w
        ∧ w.type = .BOOL ∧ w.getBool = some v)
    ∧ (∀ v : Ptr, ∃ w, (D.Add_object u k v).getValue k = some w
        ∧ w.isObject = true ∧ w.data = .o v)
    ∧ (∀ v : String, ∃ w, (JSON.Add_string h D u k v).2.getValue k = some w
        ∧ w.isString = true ∧ w.getString (JSON.Add_string h D u k v).1 = some v)
    ∧ (∃ w, (D.Add_null u k).getValue k = some w ∧ w.type = .EMPTY)
    ∧ (∀ v : Value, (D.Add_value u k v).getValue k = some v)
    ∧ (∀ v : Ptr, ∃ w, (D.Add_string_ptr u k v).getValue k = some w
        ∧ w.isString = true ∧ w.data = .s v)
    ∧ (∀ v : Ptr, ∃ w, (D.Add_string_array_ptr u k v).getValue k = some w
        ∧ w.isArrayString = true ∧ w.data = .as v) := by
  have key : ∀ y : Property, y.Key = k →
      JSON.getValueLoop k (D.properties ++ [y]) = some y.Get :=
    fun y hy => JSON.getValueLoop_append_new k D.properties y hk hy
  refine ⟨?_, ?_, ?_, ?_, ?_, ?_, ?_, ?_, ?_⟩
  · intro v
    exact ⟨_, key (Property.ofInt u k v) rfl, rfl, rfl⟩
  · intro v
    exact ⟨_, key (Property.ofFloat u k v) rfl, rfl, rfl⟩
  · intro v
    exact ⟨_, key (Property.ofBool u k v) rfl, rfl, rfl⟩
  · intro v
    exact ⟨_, key (Property.ofObject u k v) rfl, rfl, rfl⟩
  · intro v
    refine ⟨(Property.ofString u k h.fresh).Get, ?_, rfl, ?_⟩
    · rw [JSON.Add_string_doc]
      exact key (Property.ofString u k h.fresh) rfl
    · rw [JSON.Add_string_heap]
      exact JSON.getString_Add_string h u k v
  · exact ⟨_, key (Property.ofNull u k) rfl, rfl⟩
  · intro v
    exact key (Property.ofValue u k v) rfl
  · intro v
    exact ⟨_, key (Property.ofString u k v) rfl, rfl, rfl⟩
  · intro v
    exact ⟨_, key (Property.ofStringArray u k v) rfl, rfl, rfl⟩

/-- Instance of C1: key 1 is new to the example document, which holds keys 2
and 3. -/
theorem C1_getValue_after_Add_witness :
    (∀ x ∈ ex_doc.getProperties, x.Key ≠ 1)
    ∧ (∃ w, (ex_doc.Add_int ex_u 1 42).getValue 1 = some w
        ∧ w.type = .INT ∧ w.getInt = some 42)
    ∧ (∃ w, (JSON.Add_string ex_heap ex_doc ex_u 1 "hi").2.getValue 1 = some w
        ∧ w.isString = true
        ∧ w.getString (JSON.Add_string ex_heap ex_doc ex_u 1 "hi").1 = some "hi") :=
  have hk : ∀ x ∈ ex_doc.getProperties, x.Key ≠ 1 := by decide
  ⟨hk, (C1_getValue_after_Add ex_heap ex_doc ex_u 1 hk).1 42,
    (C1_getValue_after_Add ex_heap ex_doc ex_u 1 hk).2.2.2.2.1 "hi"⟩

/-! ## C2 -/

/-- C2: a sequence of `Add` calls (any mix of overloads) with keys k1..kN applied
to an empty document, freshly constructed or just cleared, leaves
`getProperties()` with exactly N elements whose keys are k1..kN in call order. -/
theorem C2_keys_in_call_order (h : Heap) (m : Ptr) (D : JSON) (calls : List AddCall) :
    ((JSON.AddAll h (JSON.new m) calls).2.getProperties.length = calls.length
      ∧ (JSON.AddAll h (JSON.new m) calls).2.getProperties.map Property.Key
          = calls.map AddCall.p)
    ∧ ((JSON.AddAll h D.clear calls).2.getProperties.length = calls.length
      ∧ (JSON.AddAll h D.clear calls).2.getProperties.map Property.Key
          = calls.map AddCall.p) := by
  have hnew : (JSON.AddAll h (JSON.new m) calls).2.properties.map Property.Key
      = calls.map AddCall.p := by
    rw [JSON.AddAll_keys]; rfl
  have hclr : (JSON.AddAll h D.clear calls).2.properties.map Property.Key
      = calls.map AddCall.p := by
    rw [JSON.AddAll_keys]; rfl
  refine ⟨⟨?_, hnew⟩, ⟨?_, hclr⟩⟩
  · have := congrArg List.length hnew
    simpa [JSON.getProperties] using this
  · have := congrArg List.length hclr
    simpa [JSON.getProperties] using this

/-! ## C3 -/

/-- The loop of `getValue` returns the value of the first property with the key. -/
theorem JSON.getValueLoop_first (k : Int) (xs : List Property)
    (hk : ∃ x ∈ xs, x.Key = k) :
    ∃ (i : Nat) (x : Property), xs[i]? = some x ∧ x.Key = k
      ∧ (∀ j, j < i → ∀ y, xs[j]? = some y → y.Key ≠ k)
      ∧ JSON.getValueLoop k xs = some x.Get := by
  induction xs with
  | nil =>
    obtain ⟨x, hx, _⟩ := hk
    cases hx
  | cons a rest ih =>
    by_cases ha : a.Key = k
    · refine ⟨0, a, by simp, ha, ?_, ?_⟩
      · intro j hj
        exact absurd hj (Nat.not_lt_zero j)
      · simp [JSON.getValueLoop, ha]
    · have hrest : ∃ x ∈ rest, x.Key = k := by
        obtain ⟨x, hx, hxk⟩ := hk
        rcases List.mem_cons.mp hx with rfl | hmem
        · exact absurd hxk ha
        · exact ⟨x, hmem, hxk⟩
      obtain ⟨i, x, hix, hxk, hmin, hget⟩ := ih hrest
      refine ⟨i + 1, x, by simpa using hix, hxk, ?_, ?_⟩
      · intro j hj y hy
        cases j with
        | zero =>
          simp at hy
          rw [← hy]
          exact ha
        | succ j =>
          exact hmin j (Nat.lt_of_succ_lt_succ hj) y (by simpa using hy)
      · simp [JSON.getValueLoop, ha, hget]

/-- C3: when key `k` occurs among the properties of `D` (possibly several
times), `getValue(k)` returns the Value of the property at the smallest index
whose key is `k`, and a further `Add` with the same key, through any overload and
with any value, does not change what `getValue(k)` returns. -/
theorem C3_getValue_first_match (h : Heap) (D : JSON) (k : Int)
    (hk : ∃ x ∈ D.getProperties, x.Key = k) :
    ∃ (i : Nat) (x : Property), D.getProperties[i]? = some x ∧ x.Key = k
      ∧ (∀ j, j < i → ∀ y, D.getProperties[j]? = some y → y.Key ≠ k)
      ∧ D.getValue k = some x.Get
      ∧ (∀ (u : Value) (arg : AddArg),
          (JSON.Add h D u k arg).2.getValue k = some x.Get) := by
  obtain ⟨i, x, hix, hxk, hmin, hget⟩ := JSON.getValueLoop_first k D.properties hk
  refine ⟨i, x, hix, hxk, hmin, hget, ?_⟩
  intro u arg
  obtain ⟨y, _, hprops⟩ := JSON.Add_properties h D u k arg
  unfold JSON.getValue
  rw [hprops]
  exact JSON.getValueLoop_append_old k D.properties [y] x.Get hget

/-- Instance of C3: key 3 occurs twice in the example document, first with a
borrowed string pointer. -/
theorem C3_getValue_first_match_witness :
    (∃ x ∈ ex_doc.getProperties, x.Key = 3)
    ∧ ∃ (i : Nat) (x : Property), ex_doc.getProperties[i]? = some x ∧ x.Key = 3
      ∧ (∀ j, j < i → ∀ y, ex_doc.getProperties[j]? = some y → y.Key ≠ 3)
      ∧ ex_doc.getValue 3 = some x.Get
      ∧ (∀ (u : Value) (arg : AddArg),
          (JSON.Add ex_heap ex_doc u 3 arg).2.getValue 3 = some x.Get) :=
  have hk : ∃ x ∈ ex_doc.getProperties, x.Key = 3 :=
    ⟨Property.ofBool ex_u 3 true, by decide, rfl⟩
  ⟨hk, C3_getValue_first_match ex_heap ex_doc 3 hk⟩

/-! ## C4 -/

/-- C4: `getValue(p)` is the null pointer exactly when no property of `D` has key
`p`, it is a pointer to a Value exactly when some property has key `p`, and
`operator[](p)` returns what `getValue(p)` returns. -/
theorem C4_getValue_null_iff_absent (D : JSON) (p : Int) :
    (D.getValue p = none ↔ ∀ x ∈ D.getProperties, x.Key ≠ p)
    ∧ ((D.getValue p).isSome = true ↔ ∃ x ∈ D.getProperties, x.Key = p)
    ∧ D.operator_subscript p = D.getValue p := by
  have hnone : D.getValue p = none ↔ ∀ x ∈ D.getProperties, x.Key ≠ p :=
    JSON.getValueLoop_eq_none_iff p D.properties
  refine ⟨hnone, ?_, rfl⟩
  rw [Option.isSome_iff_ne_none, Ne, hnone]
  push_neg
  rfl

/-! ## C5 -/

/-- C5: after `D.clear()` the property sequence and the three pools are empty,
`getValue(p)` is null for every key `p`, and `keymap` is what it was before. -/
theorem C5_clear_empties (D : JSON) :
    D.clear.getProperties = []
    ∧ D.clear.objects = [] ∧ D.clear.strings = [] ∧ D.clear.arrays = []
    ∧ (∀ p : Int, D.clear.getValue p = none)
    ∧ D.clear.keymap = D.keymap :=
  ⟨rfl, rfl, rfl, rfl, fun _ => rfl, rfl⟩

/-! ## C6 -/

/-- C6 fails as stated: after an assignment to the public member `binary`,
`clear()` leaves `binary` as assigned, while a freshly constructed document has
`binary == NULL`. -/
theorem C6_clear_keeps_binary_counterexample :
    (JSON.run ex_heap (JSON.new 9) [Op.set_binary 5]).2.clear.binary = 5
    ∧ (JSON.new 9).binary = 0
    ∧ (JSON.run ex_heap (JSON.new 9) [Op.set_binary 5]).2.clear ≠ JSON.new 9 := by
  decide

/-- C6 as amended: for a document constructed as `JSON(m)` and modified by any
sequence of public operations, the state after `clear()` equals that of a fresh
`JSON(m)` in the fields properties, objects, strings, arrays and keymap;
`binary` is left as it was before the call, so the whole state equals the fresh
one exactly when `binary` is `NULL`. -/
theorem C6_clear_resets_all_but_binary (h : Heap) (m : Ptr) (ops : List Op) :
    (JSON.run h (JSON.new m) ops).2.clear.properties = (JSON.new m).properties
    ∧ (JSON.run h (JSON.new m) ops).2.clear.objects = (JSON.new m).objects
    ∧ (JSON.run h (JSON.new m) ops).2.clear.strings = (JSON.new m).strings
    ∧ (JSON.run h (JSON.new m) ops).2.clear.arrays = (JSON.new m).arrays
    ∧ (JSON.run h (JSON.new m) ops).2.clear.keymap = (JSON.new m).keymap
    ∧ (JSON.run h (JSON.new m) ops).2.clear.binary
        = (JSON.run h (JSON.new m) ops).2.binary
    ∧ ((JSON.run h (JSON.new m) ops).2.clear = JSON.new m
        ↔ (JSON.run h (JSON.new m) ops).2.binary = nullptr) := by
  have hkm : (JSON.run h (JSON.new m) ops).2.keymap = m := JSON.run_keymap ops h (JSON.new m)
  refine ⟨rfl, rfl, rfl, rfl, hkm, rfl, ?_⟩
  constructor
  · intro heq
    have := congrArg JSON.binary heq
    exact this
  · intro hbin
    have hclr : ∀ D : JSON, D.keymap = m → D.binary = nullptr → D.clear = JSON.new m := by
      intro D h1 h2
      cases D
      simp only [JSON.clear, JSON.new] at *
      simp [h1, h2]
    exact hclr _ hkm hbin

/-! ## C7 -/

/-- C7 fails as stated when key `p` already occurs in `D` with a borrowed pointer
to the string of the caller: `getValue(p)` returns that earlier property, so the
string read through `getValue(p)->getString()` changes with the string of the
caller.  Here the caller owns "abc" at address 1, adds it under key 7 first as a
borrowed pointer and then as an owned copy, and then changes or destroys it. -/
theorem C7_getValue_reads_borrowed_counterexample :
    ((JSON.Add_string ex_heap ((JSON.new 9).Add_string_ptr ex_u 7 1) ex_u 7 "abc").2.getValue 7).bind
        (Value.getString
          (JSON.Add_string ex_heap ((JSON.new 9).Add_string_ptr ex_u 7 1) ex_u 7 "abc").1)
      = some "abc"
    ∧ ((JSON.Add_string ex_heap ((JSON.new 9).Add_string_ptr ex_u 7 1) ex_u 7 "abc").2.getValue 7).bind
        (Value.getString
          ((JSON.Add_string ex_heap ((JSON.new 9).Add_string_ptr ex_u 7 1) ex_u 7 "abc").1.write 1
            (.str "changed")))
      = some "changed"
    ∧ ((JSON.Add_string ex_heap ((JSON.new 9).Add_string_ptr ex_u 7 1) ex_u 7 "abc").2.getValue 7).bind
        (Value.getString
          ((JSON.Add_string ex_heap ((JSON.new 9).Add_string_ptr ex_u 7 1) ex_u 7 "abc").1.free 1))
      = none := by
  decide

/-- C7 as amended: `Add(p, v)` with `v` a `const std::string&` appends exactly one
entry `q` to the strings pool, a newly allocated string whose content equals `v`
and whose address differs from every object live before the call (so from `v`
of the caller, live at `a`); it appends exactly one property with key `p` whose
Value is of String kind and references `q`; objects, arrays and the earlier
properties are unchanged.  A later change or destruction of the object at `a`
does not change the string read through the Value of the appended property, which
is what `getValue(p)` returns when `p` did not occur in `D` before the call. -/
theorem C7_Add_string_owned_copy (h : Heap) (D : JSON) (u : Value) (p : Int) (v : String)
    (a : Ptr) (y : Obj) (ha : h.read a = some y) :
    ∃ (q : Ptr) (x : Property),
      (JSON.Add_string h D u p v).2.strings = D.strings ++ [q]
      ∧ h.read q = none
      ∧ (JSON.Add_string h D u p v).1.read q = some (.str v)
      ∧ q ≠ a
      ∧ (JSON.Add_string h D u p v).2.getProperties = D.getProperties ++ [x]
      ∧ x.Key = p ∧ x.Get.isString = true ∧ x.Get.data = .s q
      ∧ (JSON.Add_string h D u p v).2.objects = D.objects
      ∧ (JSON.Add_string h D u p v).2.arrays = D.arrays
      ∧ x.Get.getString (JSON.Add_string h D u p v).1 = some v
      ∧ (∀ z : Obj, x.Get.getString ((JSON.Add_string h D u p v).1.write a z) = some v)
      ∧ x.Get.getString ((JSON.Add_string h D u p v).1.free a) = some v
      ∧ ((∀ z ∈ D.getProperties, z.Key ≠ p) →
          (JSON.Add_string h D u p v).2.getValue p = some x.Get) := by
  have hne : a ≠ h.fresh := fun e => (Heap.fresh_ne_of_read h a y ha) e.symm
  have hnew : (h.alloc (.str v)).2.read h.fresh = some (.str v) :=
    Heap.read_alloc_self h (.str v)
  refine ⟨h.fresh, Property.ofString u p h.fresh, ?_, Heap.read_fresh h, ?_, hne.symm, ?_,
    rfl, rfl, rfl, ?_, ?_, ?_, ?_, ?_, ?_⟩
  · rw [JSON.Add_string_doc]
  · rw [JSON.Add_string_heap]; exact hnew
  · rw [JSON.Add_string_doc]; rfl
  · rw [JSON.Add_string_doc]
  · rw [JSON.Add_string_doc]
  · rw [JSON.Add_string_heap]; exact JSON.getString_Add_string h u p v
  · intro z
    rw [JSON.Add_string_heap]
    have hr := Heap.read_write_of_ne (h.alloc (.str v)).2 a h.fresh z hne
    rw [hnew] at hr
    simp [Property.ofString, Property.Get, Value.setString, Value.getString, hr]
  · rw [JSON.Add_string_heap]
    have hr := Heap.read_free_of_ne (h.alloc (.str v)).2 a h.fresh hne
    rw [hnew] at hr
    simp [Property.ofString, Property.Get, Value.setString, Value.getString, hr]
  · intro hp
    rw [JSON.Add_string_doc]
    exact JSON.getValueLoop_append_new p D.properties _ hp rfl

/-- Instance of C7: the caller owns "abc" at address 1 and adds a copy under the
new key 1 to the example document, which borrows the string at address 1 under
key 3. -/
theorem C7_Add_string_owned_copy_witness :
    ex_heap.read 1 = some (.str "abc")
    ∧ ∃ (q : Ptr) (x : Property),
      (JSON.Add_string ex_heap ex_doc ex_u 1 "abc").2.strings = ex_doc.strings ++ [q]
      ∧ ex_heap.read q = none
      ∧ (JSON.Add_string ex_heap ex_doc ex_u 1 "abc").1.read q = some (.str "abc")
      ∧ q ≠ 1
      ∧ (JSON.Add_string ex_heap ex_doc ex_u 1 "abc").2.getProperties
          = ex_doc.getProperties ++ [x]
      ∧ x.Key = 1 ∧ x.Get.isString = true ∧ x.Get.data = .s q
      ∧ (JSON.Add_string ex_heap ex_doc ex_u 1 "abc").2.objects = ex_doc.objects
      ∧ (JSON.Add_string ex_heap ex_doc ex_u 1 "abc").2.arrays = ex_doc.arrays
      ∧ x.Get.getString (JSON.Add_string ex_heap ex_doc ex_u 1 "abc").1 = some "abc"
      ∧ (∀ z : Obj,
          x.Get.getString ((JSON.Add_string ex_heap ex_doc ex_u 1 "abc").1.write 1 z)
            = some "abc")
      ∧ x.Get.getString ((JSON.Add_string ex_heap ex_doc ex_u 1 "abc").1.free 1) = some "abc"
      ∧ ((∀ z ∈ ex_doc.getProperties, z.Key ≠ 1) →
          (JSON.Add_string ex_heap ex_doc ex_u 1 "abc").2.getValue 1 = some x.Get) :=
  ⟨by decide, C7_Add_string_owned_copy ex_heap ex_doc ex_u 1 "abc" 1 (.str "abc") (by decide)⟩

/-! ## C8 -/

/-- C8: `Add(p, h)` with `h` a shared sub-document handle appends `h` to the
objects pool (the pool grows by one and its last entry is `h`), appends exactly
one property with key `p` whose Value is of Object kind and references the target
of `h`, and leaves the strings and arrays pools and the earlier properties
unchanged. -/
theorem C8_Add_object_shared_handle (D : JSON) (u : Value) (p : Int) (hdl : Ptr) :
    (D.Add_object u p hdl).objects = D.objects ++ [hdl]
    ∧ (D.Add_object u p hdl).objects.length = D.objects.length + 1
    ∧ (D.Add_object u p hdl).objects.getLast? = some hdl
    ∧ (∃ x : Property,
        (D.Add_object u p hdl).getProperties = D.getProperties ++ [x]
        ∧ x.Key = p ∧ x.Get.isObject = true ∧ x.Get.data = .o hdl)
    ∧ (D.Add_object u p hdl).strings = D.strings
    ∧ (D.Add_object u p hdl).arrays = D.arrays := by
  refine ⟨rfl, ?_, ?_, ⟨Property.ofObject u p hdl, rfl, rfl, rfl, rfl⟩, rfl, rfl⟩
  · simp [JSON.Add_object]
  · simp [JSON.Add_object]

/-! ## C9 -/

/-- C9: `Add(p, v)` with `v` an `int`, a `float` or a `bool` appends exactly one
property with key `p` whose Value has kind Int, Float or Bool and inline payload
`v`, and leaves the three pools, `keymap`, `binary` and the earlier properties
unchanged. -/
theorem C9_Add_primitive_frame (D : JSON) (u : Value) (p : Int) :
    (∀ v : Int,
      (D.Add_int u p v).getProperties
          = D.getProperties ++ [{ key := p, value := { type := .INT, data := .i v } }]
      ∧ (D.Add_int u p v).objects = D.objects
      ∧ (D.Add_int u p v).strings = D.strings
      ∧ (D.Add_int u p v).arrays = D.arrays
      ∧ (D.Add_int u p v).keymap = D.keymap
      ∧ (D.Add_int u p v).binary = D.binary)
    ∧ (∀ v : CFloat,
      (D.Add_float u p v).getProperties
          = D.getProperties ++ [{ key := p, value := { type := .FLOAT, data := .f v } }]
      ∧ (D.Add_float u p v).objects = D.objects
      ∧ (D.Add_float u p v).strings = D.strings
      ∧ (D.Add_float u p v).arrays = D.arrays
      ∧ (D.Add_float u p v).keymap = D.keymap
      ∧ (D.Add_float u p v).binary = D.binary)
    ∧ (∀ v : Bool,
      (D.Add_bool u p v).getProperties
          = D.getProperties ++ [{ key := p, value := { type := .BOOL, data := .b v } }]
      ∧ (D.Add_bool u p v).objects = D.objects
      ∧ (D.Add_bool u p v).strings = D.strings
      ∧ (D.Add_bool u p v).arrays = D.arrays
      ∧ (D.Add_bool u p v).keymap = D.keymap
      ∧ (D.Add_bool u p v).binary = D.binary) :=
  ⟨fun _ => ⟨rfl, rfl, rfl, rfl, rfl, rfl⟩,
   fun _ => ⟨rfl, rfl, rfl, rfl, rfl, rfl⟩,
   fun _ => ⟨rfl, rfl, rfl, rfl, rfl, rfl⟩⟩

/-! ## C10 -/

/-- C10: `Add(p, q)` with `q` a caller-managed `const std::string*` or
`const std::vector<std::string>*` appends exactly one property with key `p`
whose Value is of String, respectively ArrayString, kind and holds exactly the
pointer `q`, adds no entry to any of the three pools, and allocates nothing
(the heap after the call is the heap before it). -/
theorem C10_Add_borrowed_pointer (h : Heap) (D : JSON) (u : Value) (p : Int) (q : Ptr) :
    ((∃ x : Property,
        (D.Add_string_ptr u p q).getProperties = D.getProperties ++ [x]
        ∧ x.Key = p ∧ x.Get.isString = true ∧ x.Get.data = .s q)
      ∧ (D.Add_string_ptr u p q).objects = D.objects
      ∧ (D.Add_string_ptr u p q).strings = D.strings
      ∧ (D.Add_string_ptr u p q).arrays = D.arrays
      ∧ (JSON.Add h D u p (.string_ptr q)) = (h, D.Add_string_ptr u p q))
    ∧ ((∃ x : Property,
        (D.Add_string_array_ptr u p q).getProperties = D.getProperties ++ [x]
        ∧ x.Key = p ∧ x.Get.isArrayString = true ∧ x.Get.data = .as q)
      ∧ (D.Add_string_array_ptr u p q).objects = D.objects
      ∧ (D.Add_string_array_ptr u p q).strings = D.strings
      ∧ (D.Add_string_array_ptr u p q).arrays = D.arrays
      ∧ (JSON.Add h D u p (.string_array_ptr q)) = (h, D.Add_string_array_ptr u p q)) :=
  ⟨⟨⟨Property.ofString u p q, rfl, rfl, rfl, rfl⟩, rfl, rfl, rfl, rfl⟩,
   ⟨⟨Property.ofStringArray u p q, rfl, rfl, rfl, rfl⟩, rfl, rfl, rfl, rfl⟩⟩

/-! ## C11 -/

/-- C11: `Add(p, v)` with `v` an already constructed `Value` of any kind appends
exactly one property with key `p` whose Value has the kind tag and the inline or
reference payload of `v` (it is `v`), adds no entry to any of the three pools and
copies no heap data (the heap after the call is the heap before it). -/
theorem C11_Add_value_copies_value (h : Heap) (D : JSON) (u : Value) (p : Int) (v : Value) :
    (∃ x : Property,
        (D.Add_value u p v).getProperties = D.getProperties ++ [x]
        ∧ x.Key = p ∧ x.Get = v ∧ x.Get.type = v.type ∧ x.Get.data = v.data)
    ∧ (D.Add_value u p v).objects = D.objects
    ∧ (D.Add_value u p v).strings = D.strings
    ∧ (D.Add_value u p v).arrays = D.arrays
    ∧ JSON.Add h D u p (.value v) = (h, D.Add_value u p v) :=
  ⟨⟨Property.ofValue u p v, rfl, rfl, rfl, rfl, rfl⟩, rfl, rfl, rfl, rfl⟩

/-! ## C12 -/

/-- C12: for every key `p` and payload `x`, the convenience constructor
`Property(p, x)` builds the same Property as `Property(p, v)` with `v` obtained by
the matching setter called with `x`, whatever the indeterminate contents the
Values start from; `Property(p)` and `Property(p, v)` with `v` obtained by
`setNull` both have key `p` and the Empty kind (which has no payload), and are
the same Property when built over the same initial contents. -/
theorem C12_Property_constructors (u u1 u2 : Value) (p : Int) :
    (∀ x : Int, Property.ofInt u p x = Property.ofValue u1 p (u2.setInt x))
    ∧ (∀ x : CFloat, Property.ofFloat u p x = Property.ofValue u1 p (u2.setFloat x))
    ∧ (∀ x : Bool, Property.ofBool u p x = Property.ofValue u1 p (u2.setBool x))
    ∧ (∀ x : Ptr, Property.ofString u p x = Property.ofValue u1 p (u2.setString x))
    ∧ (∀ x : Ptr,
        Property.ofStringArray u p x = Property.ofValue u1 p (u2.setStringArray x))
    ∧ (∀ x : Ptr, Property.ofObject u p x = Property.ofValue u1 p (u2.setObject x))
    ∧ ((Property.ofNull u p).Key = p
        ∧ (Property.ofValue u1 p u2.setNull).Key = p
        ∧ (Property.ofNull u p).Get.type = .EMPTY
        ∧ (Property.ofValue u1 p u2.setNull).Get.type = .EMPTY
        ∧ Property.ofNull u p = Property.ofValue u1 p u.setNull) :=
  ⟨fun _ => rfl, fun _ => rfl, fun _ => rfl, fun _ => rfl, fun _ => rfl, fun _ => rfl,
    rfl, rfl, rfl, rfl, rfl⟩

/-! ## C13 -/

/-- C13 fails as stated for `setNull`, which writes the kind tag only: two Values
that held different integers are still different after `setNull`, and `getInt`
returns the integer stored before the call. -/
theorem C13_setNull_keeps_union_counterexample :
    (Value.setNull { type := .INT, data := .i 1 })
        ≠ (Value.setNull { type := .INT, data := .i 2 })
    ∧ (Value.setNull { type := .INT, data := .i 1 }).getInt = some 1
    ∧ (Value.setNull { type := .INT, data := .i 2 }).getInt = some 2 := by
  decide

/-- C13 as amended: for Values `a` and `b` in arbitrary prior states, each of the
pointer setters `setArray`, `setStringArray`, `setString`, `setObject` (whose
member covers the whole union) leaves `a` and `b` in the same state, determined
by the setter and its argument; after `setFloat`, `setInt` and `setBool` the
kind tag and the payload read through the matching getter are those of the call,
for `a` as for `b` (nothing is said about the bytes of the union that the written
member does not cover); `setNull` sets the kind tag to Empty whatever the prior
state and leaves the union as it was, so `a` and `b` are equal after `setNull`
exactly when their unions held the same contents before. -/
theorem C13_setters_overwrite (a b : Value) :
    (∀ x : Ptr, a.setArray x = b.setArray x
        ∧ (a.setArray x).isArray = true ∧ (a.setArray x).data = .a x)
    ∧ (∀ x : Ptr, a.setStringArray x = b.setStringArray x
        ∧ (a.setStringArray x).isArrayString = true ∧ (a.setStringArray x).data = .as x)
    ∧ (∀ x : Ptr, a.setString x = b.setString x
        ∧ (a.setString x).isString = true ∧ (a.setString x).data = .s x)
    ∧ (∀ x : Ptr, a.setObject x = b.setObject x
        ∧ (a.setObject x).isObject = true ∧ (a.setObject x).data = .o x)
    ∧ (∀ x : CFloat, (a.setFloat x).type = .FLOAT ∧ (a.setFloat x).getFloat = some x
        ∧ (b.setFloat x).type = .FLOAT ∧ (b.setFloat x).getFloat = some x)
    ∧ (∀ x : Int, (a.setInt x).type = .INT ∧ (a.setInt x).getInt = some x
        ∧ (b.setInt x).type = .INT ∧ (b.setInt x).getInt = some x)
    ∧ (∀ x : Bool, (a.setBool x).type = .BOOL ∧ (a.setBool x).getBool = some x
        ∧ (b.setBool x).type = .BOOL ∧ (b.setBool x).getBool = some x)
    ∧ (a.setNull.type = .EMPTY ∧ b.setNull.type = .EMPTY
        ∧ a.setNull.data = a.data ∧ b.setNull.data = b.data
        ∧ (a.setNull = b.setNull ↔ a.data = b.data)) := by
  refine ⟨fun _ => ⟨rfl, rfl, rfl⟩, fun _ => ⟨rfl, rfl, rfl⟩, fun _ => ⟨rfl, rfl, rfl⟩,
    fun _ => ⟨rfl, rfl, rfl⟩, fun _ => ⟨rfl, rfl, rfl, rfl⟩, fun _ => ⟨rfl, rfl, rfl, rfl⟩,
    fun _ => ⟨rfl, rfl, rfl, rfl⟩, rfl, rfl, rfl, rfl, ?_⟩
  constructor
  · intro heq
    have hdata : a.setNull.data = b.setNull.data := congrArg Value.data heq
    exact hdata
  · intro hd
    cases a
    cases b
    simp only [Value.setNull] at *
    rw [hd]

/-! ## C14 -/

theorem Value.calls_append_one (u : Value) (ss : List Setter) (s : Setter) :
    u.calls (ss ++ [s]) = (u.calls ss).call s := by
  simp [Value.calls, List.foldl_append]

/-- C14: on a Value on which at least one setter has been called (the calls `ss`
and then `s`, starting from any contents `u`), at most one of `isObject`,
`isArray`, `isArrayString`, `isString` is true, and each is true exactly when
the most recent call `s` was `setObject`, `setArray`, `setStringArray`,
`setString` respectively; all four are false after `setBool`, `setInt`,
`setFloat` and `setNull`. -/
theorem C14_kind_predicates (u : Value) (ss : List Setter) (s : Setter) :
    ((u.calls (ss ++ [s])).isObject = true ↔ ∃ q, s = .setObject q)
    ∧ ((u.calls (ss ++ [s])).isArray = true ↔ ∃ q, s = .setArray q)
    ∧ ((u.calls (ss ++ [s])).isArrayString = true ↔ ∃ q, s = .setStringArray q)
    ∧ ((u.calls (ss ++ [s])).isString = true ↔ ∃ q, s = .setString q)
    ∧ ([(u.calls (ss ++ [s])).isObject, (u.calls (ss ++ [s])).isArray,
        (u.calls (ss ++ [s])).isArrayString, (u.calls (ss ++ [s])).isString].count true ≤ 1) := by
  rw [Value.calls_append_one]
  generalize u.calls ss = w
  cases s <;>
    simp [Value.call, Value.isObject, Value.isArray, Value.isArrayString, Value.isString,
      Value.setFloat, Value.setInt, Value.setBool, Value.setNull, Value.setArray,
      Value.setStringArray, Value.setString, Value.setObject]

/-! ## C15 -/

/-- A call of `Add` leaves every live object where it is and as it is. -/
theorem JSON.Add_heap_read (h : Heap) (D : JSON) (u : Value) (p : Int) (arg : AddArg)
    (q : Ptr) (y : Obj) (hy : h.read q = some y) :
    (JSON.Add h D u p arg).1.read q = some y := by
  cases arg with
  | string v =>
    show (JSON.Add_string h D u p v).1.read q = some y
    rw [JSON.Add_string_heap]
    exact Heap.read_alloc_of_read h (.str v) y q hy
  | _ => exact hy

theorem JSON.member_keymap (h : Heap) (D : JSON) (op : MemberOp) :
    (JSON.member h D op).2.keymap = D.keymap := by
  cases op with
  | Add c => exact (JSON.Add_keymap_binary h D c.u c.p c.arg).1
  | _ => rfl

theorem JSON.member_heap_read (h : Heap) (D : JSON) (op : MemberOp)
    (q : Ptr) (y : Obj) (hy : h.read q = some y) :
    (JSON.member h D op).1.read q = some y := by
  cases op with
  | Add c => exact JSON.Add_heap_read h D c.u c.p c.arg q y hy
  | _ => exact hy

theorem JSON.members_keymap (ops : List MemberOp) :
    ∀ (h : Heap) (D : JSON), (JSON.members h D ops).2.keymap = D.keymap := by
  induction ops with
  | nil => intro h D; rfl
  | cons op rest ih =>
    intro h D
    simp only [JSON.members]
    rw [ih, JSON.member_keymap]

theorem JSON.members_heap_read (ops : List MemberOp) :
    ∀ (h : Heap) (D : JSON) (q : Ptr) (y : Obj), h.read q = some y →
      (JSON.members h D ops).1.read q = some y := by
  induction ops with
  | nil => intro h D q y hy; exact hy
  | cons op rest ih =>
    intro h D q y hy
    simp only [JSON.members]
    exact ih _ _ q y (JSON.member_heap_read h D op q y hy)

/-- C15: after any sequence of public member calls (all `Add` overloads,
`getValue`, `operator[]`, `getProperties`, `clear`) on a document constructed as
`JSON(m)`, `keymap` is still `m`, and the table that `m` points to has the
contents it had before the calls. -/
theorem C15_keymap_fixed (h : Heap) (m : Ptr) (ops : List MemberOp) :
    (JSON.members h (JSON.new m) ops).2.keymap = m
    ∧ (∀ t : List (List String), h.read m = some (.table t) →
        (JSON.members h (JSON.new m) ops).1.read m = some (.table t)) :=
  ⟨JSON.members_keymap ops h (JSON.new m),
    fun t ht => JSON.members_heap_read ops h (JSON.new m) m (.table t) ht⟩

/-- Instance of C15: the table at address 9 of the example heap, across an owned
string copy, two lookups, a `clear()` and a further `Add`. -/
theorem C15_keymap_fixed_witness :
    ex_heap.read 9 = some (.table [["zero"], ["one"]])
    ∧ (JSON.members ex_heap (JSON.new 9)
        [.Add ⟨ex_u, 1, .string "abc"⟩, .getValue 1, .subscript 2, .getProperties, .clear,
          .Add ⟨ex_u, 0, .int 4⟩]).2.keymap = 9
    ∧ (JSON.members ex_heap (JSON.new 9)
        [.Add ⟨ex_u, 1, .string "abc"⟩, .getValue 1, .subscript 2, .getProperties, .clear,
          .Add ⟨ex_u, 0, .int 4⟩]).1.read 9 = some (.table [["zero"], ["one"]]) :=
  ⟨by decide,
    (C15_keymap_fixed ex_heap 9 _).1,
    (C15_keymap_fixed ex_heap 9 _).2 [["zero"], ["one"]] (by decide)⟩

/-! ## C17 -/

/-- An overload that touches no pool keeps the invariant. -/
theorem JSON.PoolInv_push (D : JSON) (acc : List AddCall) (c : AddCall) (x : Property)
    (hs : c.is_owned_string = false) (ho : c.is_shared_handle = false)
    (hD : JSON.PoolInv D acc) :
    JSON.PoolInv { D with properties := D.properties ++ [x] } (acc ++ [c]) := by
  obtain ⟨h1, h2, h3, h4, h5, h6⟩ := hD
  refine ⟨h1, ?_, ?_, ?_, ?_, ?_⟩
  · simp [List.countP_append, hs, h2]
  · simp [List.countP_append, ho, h3]
  · simp only [List.length_append, List.length_singleton]
    omega
  · intro q hq
    obtain ⟨y, hy, hy2⟩ := h5 q hq
    exact ⟨y, List.mem_append_left _ hy, hy2⟩
  · intro q hq
    obtain ⟨y, hy, hy2⟩ := h6 q hq
    exact ⟨y, List.mem_append_left _ hy, hy2⟩

/-- Every overload of `Add` keeps the invariant. -/
theorem JSON.PoolInv_Add (h : Heap) (D : JSON) (acc : List AddCall) (c : AddCall)
    (hD : JSON.PoolInv D acc) :
    JSON.PoolInv (JSON.Add h D c.u c.p c.arg).2 (acc ++ [c]) := by
  obtain ⟨u, p, arg⟩ := c
  cases arg with
  | int v => exact JSON.PoolInv_push D acc _ _ rfl rfl hD
  | float v => exact JSON.PoolInv_push D acc _ _ rfl rfl hD
  | bool v => exact JSON.PoolInv_push D acc _ _ rfl rfl hD
  | null => exact JSON.PoolInv_push D acc _ _ rfl rfl hD
  | value v => exact JSON.PoolInv_push D acc _ _ rfl rfl hD
  | string_ptr v => exact JSON.PoolInv_push D acc _ _ rfl rfl hD
  | string_array_ptr v => exact JSON.PoolInv_push D acc _ _ rfl rfl hD
  | object v =>
    obtain ⟨h1, h2, h3, h4, h5, h6⟩ := hD
    refine ⟨h1, ?_, ?_, ?_, ?_, ?_⟩
    · simp [JSON.Add, JSON.Add_object, List.countP_append, AddCall.is_owned_string, h2]
    · simp [JSON.Add, JSON.Add_object, List.countP_append, AddCall.is_shared_handle, h3]
    · simp only [JSON.Add, JSON.Add_object, List.length_append, List.length_singleton]
      omega
    · intro q hq
      obtain ⟨y, hy, hy2⟩ := h5 q hq
      exact ⟨y, List.mem_append_left _ hy, hy2⟩
    · intro q hq
      rcases List.mem_append.mp hq with hold | hnew
      · obtain ⟨y, hy, hy2⟩ := h6 q hold
        exact ⟨y, List.mem_append_left _ hy, hy2⟩
      · have hqv : q = v := by simpa using hnew
        subst hqv
        exact ⟨Property.ofObject u p q, List.mem_append_right _ (List.mem_singleton.mpr rfl),
          rfl, rfl⟩
  | string v =>
    obtain ⟨h1, h2, h3, h4, h5, h6⟩ := hD
    show JSON.PoolInv (JSON.Add_string h D u p v).2 _
    rw [JSON.Add_string_doc]
    refine ⟨h1, ?_, ?_, ?_, ?_, ?_⟩
    · simp [List.countP_append, AddCall.is_owned_string, h2]
    · simp [List.countP_append, AddCall.is_shared_handle, h3]
    · simp only [List.length_append, List.length_singleton]
      omega
    · intro q hq
      rcases List.mem_append.mp hq with hold | hnew
      · obtain ⟨y, hy, hy2⟩ := h5 q hold
        exact ⟨y, List.mem_append_left _ hy, hy2⟩
      · have hqv : q = h.fresh := by simpa using hnew
        subst hqv
        exact ⟨Property.ofString u p h.fresh,
          List.mem_append_right _ (List.mem_singleton.mpr rfl), rfl, rfl⟩
    · intro q hq
      obtain ⟨y, hy, hy2⟩ := h6 q hq
      exact ⟨y, List.mem_append_left _ hy, hy2⟩

/-- Every public operation keeps the invariant. -/
theorem JSON.PoolInv_step (h : Heap) (D : JSON) (acc : List AddCall) (op : Op)
    (hD : JSON.PoolInv D acc) :
    JSON.PoolInv (JSON.step h D op).2 (Op.since_clear acc op) := by
  cases op with
  | add c => exact JSON.PoolInv_Add h D acc c hD
  | set_binary q => exact hD
  | clear =>
    refine ⟨rfl, rfl, rfl, ?_, ?_, ?_⟩
    · simp [JSON.step, JSON.clear]
    · intro q hq
      simp [JSON.step, JSON.clear] at hq
    · intro q hq
      simp [JSON.step, JSON.clear] at hq

theorem JSON.PoolInv_run (ops : List Op) :
    ∀ (h : Heap) (D : JSON) (acc : List AddCall), JSON.PoolInv D acc →
      JSON.PoolInv (JSON.run h D ops).2 (ops.foldl Op.since_clear acc) := by
  induction ops with
  | nil => intro h D acc hD; exact hD
  | cons op rest ih =>
    intro h D acc hD
    simp only [JSON.run, List.foldl_cons]
    exact ih _ _ _ (JSON.PoolInv_step h D acc op hD)

/-- C17: in every document reached from construction by public operations (the
`Add` overloads, assignments to `binary`, `clear`), the arrays pool is empty; the
strings pool has as many entries as owned-copy string `Add` calls since the last
`clear`, and the objects pool as many as shared-handle `Add` calls since the last
`clear`, so that size(objects) + size(strings) is at most size(properties); and
every entry of the strings pool, respectively objects pool, is referenced by the
Value of a property of String, respectively Object, kind. -/
theorem C17_pool_invariant (h : Heap) (m : Ptr) (ops : List Op) :
    (JSON.run h (JSON.new m) ops).2.arrays = []
    ∧ (JSON.run h (JSON.new m) ops).2.strings.length
        = (Op.adds_since_clear ops).countP AddCall.is_owned_string
    ∧ (JSON.run h (JSON.new m) ops).2.objects.length
        = (Op.adds_since_clear ops).countP AddCall.is_shared_handle
    ∧ (JSON.run h (JSON.new m) ops).2.objects.length
        + (JSON.run h (JSON.new m) ops).2.strings.length
        ≤ (JSON.run h (JSON.new m) ops).2.getProperties.length
    ∧ (∀ q ∈ (JSON.run h (JSON.new m) ops).2.strings,
        ∃ x ∈ (JSON.run h (JSON.new m) ops).2.getProperties,
          x.Get.isString = true ∧ x.Get.data = .s q)
    ∧ (∀ q ∈ (JSON.run h (JSON.new m) ops).2.objects,
        ∃ x ∈ (JSON.run h (JSON.new m) ops).2.getProperties,
          x.Get.isObject = true ∧ x.Get.data = .o q) := by
  have h0 : JSON.PoolInv (JSON.new m) [] := by
    refine ⟨rfl, rfl, rfl, ?_, ?_, ?_⟩
    · simp [JSON.new]
    · intro q hq
      simp [JSON.new] at hq
    · intro q hq
      simp [JSON.new] at hq
  exact JSON.PoolInv_run ops h (JSON.new m) [] h0

/-- Instance of C17: an owned string copy and a shared handle, then `clear()`,
then one owned string copy, an assignment to `binary` and an `int`. -/
theorem C17_pool_invariant_witness :
    (JSON.run ex_heap (JSON.new 9)
        [.add ⟨ex_u, 1, .string "abc"⟩, .add ⟨ex_u, 2, .object 5⟩, .clear,
          .add ⟨ex_u, 1, .string "x"⟩, .set_binary 3, .add ⟨ex_u, 4, .int 1⟩]).2.arrays = []
    ∧ (JSON.run ex_heap (JSON.new 9)
        [.add ⟨ex_u, 1, .string "abc"⟩, .add ⟨ex_u, 2, .object 5⟩, .clear,
          .add ⟨ex_u, 1, .string "x"⟩, .set_binary 3, .add ⟨ex_u, 4, .int 1⟩]).2.strings.length
        = 1
    ∧ (JSON.run ex_heap (JSON.new 9)
        [.add ⟨ex_u, 1, .string "abc"⟩, .add ⟨ex_u, 2, .object 5⟩, .clear,
          .add ⟨ex_u, 1, .string "x"⟩, .set_binary 3, .add ⟨ex_u, 4, .int 1⟩]).2.objects.length
        = 0 :=
  ⟨(C17_pool_invariant ex_heap 9 _).1,
    (C17_pool_invariant ex_heap 9 _).2.1.trans (by decide),
    (C17_pool_invariant ex_heap 9 _).2.2.1.trans (by decide)⟩

/-! ## C16 -/

/-- The name of a key whose table entry holds a single candidate. -/
theorem key_name_single (cv : Conventions) (hcv : ∀ n : String, cv.choose [n] = n)
    (t : List (List String)) (k : Nat) (n : String) (hk : t[k]? = some [n]) :
    key_name cv (some t) (k : Int) = n := by
  have hnn : ¬ ((k : Int) < 0) := by omega
  simp only [key_name, hnn, if_false, Int.toNat_ofNat, hk]
  exact hcv n

/-- The memory and the document after the three calls of the end-to-end
example: the literal is stored as the boolean `true`, and nothing is allocated. -/
theorem example_state (h : Heap) (m : Ptr) (u1 u2 u3 : Value) :
    JSON.AddAll h (JSON.new m) (example_calls u1 u2 u3)
      = (h,
          { properties :=
              [{ key := 1, value := { type := .BOOL, data := .b true } },
               { key := 2, value := { type := .INT, data := .i 42 } },
               { key := 3, value := { type := .BOOL, data := .b true } }],
            objects := [], strings := [], arrays := [],
            keymap := m, binary := nullptr }) := by
  simp [example_calls, AddArg.of_literal, JSON.AddAll, JSON.Add, JSON.Add_bool, JSON.Add_int,
    JSON.new, Property.ofBool, Property.ofInt, Value.setBool, Value.setInt]

/-- The memory and the document after the three calls when the third argument is
a `std::string`. -/
theorem example_state_std_string (h : Heap) (m : Ptr) (u1 u2 u3 : Value) :
    JSON.AddAll h (JSON.new m) (example_calls_std_string u1 u2 u3)
      = ((h.alloc (.str "hi")).2,
          { properties :=
              [{ key := 1, value := { type := .BOOL, data := .b true } },
               { key := 2, value := { type := .INT, data := .i 42 } },
               { key := 3, value := { type := .STRING, data := .s h.fresh } }],
            objects := [], strings := [h.fresh], arrays := [],
            keymap := m, binary := nullptr }) := by
  simp [example_calls_std_string, JSON.AddAll, JSON.Add, JSON.Add_bool, JSON.Add_int,
    JSON.Add_string, JSON.new, Property.ofBool, Property.ofInt, Property.ofString,
    Value.setBool, Value.setInt, Value.setString, Heap.alloc]

/-- The sibling path: with a `std::string` of content "hi" as third argument (the
overload `Add(int, const std::string&)`), the property sequence is
[(1, Bool true), (2, Int 42), (3, String referencing a string of content "hi")]
and serialization yields {"ok":true,"n":42,"s":"hi"}, under every convention
that names a key with a single candidate by that candidate. -/
theorem std_string_end_to_end (cv : Conventions) (hcv : ∀ n : String, cv.choose [n] = n)
    (h : Heap) (m : Ptr) (c0 : List String) (u1 u2 u3 : Value) (fuel : Nat)
    (hm : h.read m = some (.table [c0, ["ok"], ["n"], ["s"]])) :
    ∃ q : Ptr,
      (JSON.AddAll h (JSON.new m) (example_calls_std_string u1 u2 u3)).2.getProperties
        = [{ key := 1, value := { type := .BOOL, data := .b true } },
           { key := 2, value := { type := .INT, data := .i 42 } },
           { key := 3, value := { type := .STRING, data := .s q } }]
      ∧ (JSON.AddAll h (JSON.new m) (example_calls_std_string u1 u2 u3)).1.read q
          = some (.str "hi")
      ∧ JSON.to_string cv
          (JSON.AddAll h (JSON.new m) (example_calls_std_string u1 u2 u3)).1 (fuel + 1)
          (JSON.AddAll h (JSON.new m) (example_calls_std_string u1 u2 u3)).2
        = some "\x7b\"ok\":true,\"n\":42,\"s\":\"hi\"\x7d" := by
  have hstr : (h.alloc (.str "hi")).2.read h.fresh = some (.str "hi") :=
    Heap.read_alloc_self h (.str "hi")
  have htab : (h.alloc (.str "hi")).2.read m = some (.table [c0, ["ok"], ["n"], ["s"]]) :=
    Heap.read_alloc_of_read h (.str "hi") _ m hm
  have k1 := key_name_single cv hcv [c0, ["ok"], ["n"], ["s"]] 1 "ok" rfl
  have k2 := key_name_single cv hcv [c0, ["ok"], ["n"], ["s"]] 2 "n" rfl
  have k3 := key_name_single cv hcv [c0, ["ok"], ["n"], ["s"]] 3 "s" rfl
  rw [example_state_std_string]
  refine ⟨h.fresh, rfl, hstr, ?_⟩
  simp only [JSON.to_string, JSON.render, JSON.table, htab, List.map_cons, List.map_nil,
    Property.Get, Property.Key, Value.to_string, Value.getBool, Value.getInt, Value.getString,
    hstr, Option.map_some']
  norm_num at k1 k2 k3
  rw [k1, k2, k3]
  simp [all_some, object_text, quote, escape_char, String.join]
  decide

/-- C16, the code at the calls the claim names: for the document bound to the
table {1:["ok"], 2:["n"], 3:["s"]} and built by `Add(1, true)`, `Add(2, 42)`,
`Add(3, "hi")`, the string literal selects `Add(int, bool)`, so the property
sequence is [(1, Bool true), (2, Int 42), (3, Bool true)], no property is of
String kind, the strings pool is empty and nothing is allocated; serialization
yields {"ok":true,"n":42,"s":true}, not {"ok":true,"n":42,"s":"hi"}, under
every convention that names a key with a single candidate by that candidate. -/
theorem C16_literal_stored_as_bool (cv : Conventions)
    (hcv : ∀ n : String, cv.choose [n] = n)
    (h : Heap) (m : Ptr) (c0 : List String) (u1 u2 u3 : Value) (fuel : Nat)
    (hm : h.read m = some (.table [c0, ["ok"], ["n"], ["s"]])) :
    (JSON.AddAll h (JSON.new m) (example_calls u1 u2 u3)).2.getProperties
        = [{ key := 1, value := { type := .BOOL, data := .b true } },
           { key := 2, value := { type := .INT, data := .i 42 } },
           { key := 3, value := { type := .BOOL, data := .b true } }]
    ∧ (∀ x ∈ (JSON.AddAll h (JSON.new m) (example_calls u1 u2 u3)).2.getProperties,
        x.Get.isString = false)
    ∧ (JSON.AddAll h (JSON.new m) (example_calls u1 u2 u3)).2.strings = []
    ∧ (JSON.AddAll h (JSON.new m) (example_calls u1 u2 u3)).1 = h
    ∧ JSON.to_string cv (JSON.AddAll h (JSON.new m) (example_calls u1 u2 u3)).1 (fuel + 1)
          (JSON.AddAll h (JSON.new m) (example_calls u1 u2 u3)).2
        = some "\x7b\"ok\":true,\"n\":42,\"s\":true\x7d"
    ∧ JSON.to_string cv (JSON.AddAll h (JSON.new m) (example_calls u1 u2 u3)).1 (fuel + 1)
          (JSON.AddAll h (JSON.new m) (example_calls u1 u2 u3)).2
        ≠ some "\x7b\"ok\":true,\"n\":42,\"s\":\"hi\"\x7d" := by
  have k1 := key_name_single cv hcv [c0, ["ok"], ["n"], ["s"]] 1 "ok" rfl
  have k2 := key_name_single cv hcv [c0, ["ok"], ["n"], ["s"]] 2 "n" rfl
  have k3 := key_name_single cv hcv [c0, ["ok"], ["n"], ["s"]] 3 "s" rfl
  have htext : JSON.to_string cv h (fuel + 1)
      { properties :=
          [{ key := 1, value := { type := .BOOL, data := .b true } },
           { key := 2, value := { type := .INT, data := .i 42 } },
           { key := 3, value := { type := .BOOL, data := .b true } }],
        objects := [], strings := [], arrays := [],
        keymap := m, binary := nullptr }
      = some "\x7b\"ok\":true,\"n\":42,\"s\":true\x7d" := by
    simp only [JSON.to_string, JSON.render, JSON.table, hm, List.map_cons, List.map_nil,
      Property.Get, Property.Key, Value.to_string, Value.getBool, Value.getInt,
      Option.map_some']
    norm_num at k1 k2 k3
    rw [k1, k2, k3]
    simp [all_some, object_text, quote, escape_char, String.join]
    decide
  rw [example_state]
  refine ⟨rfl, ?_, rfl, rfl, htext, ?_⟩
  · intro x hx
    simp only [JSON.getProperties, List.mem_cons, List.mem_singleton, List.not_mem_nil,
      or_false] at hx
    rcases hx with rfl | rfl | rfl <;> rfl
  · rw [htext]
    decide

/-- Instance of C16: the table at address 4 of the example heap, with the
convention that uses the first candidate. -/
theorem C16_literal_stored_as_bool_witness :
    (∀ n : String, ex_conventions.choose [n] = n)
    ∧ ex_table_heap.read 4 = some (.table [[], ["ok"], ["n"], ["s"]])
    ∧ (JSON.AddAll ex_table_heap (JSON.new 4) (example_calls ex_u ex_u ex_u)).2.getProperties
        = [{ key := 1, value := { type := .BOOL, data := .b true } },
           { key := 2, value := { type := .INT, data := .i 42 } },
           { key := 3, value := { type := .BOOL, data := .b true } }]
    ∧ (∀ x ∈ (JSON.AddAll ex_table_heap (JSON.new 4)
          (example_calls ex_u ex_u ex_u)).2.getProperties, x.Get.isString = false)
    ∧ (JSON.AddAll ex_table_heap (JSON.new 4) (example_calls ex_u ex_u ex_u)).2.strings = []
    ∧ (JSON.AddAll ex_table_heap (JSON.new 4) (example_calls ex_u ex_u ex_u)).1 = ex_table_heap
    ∧ JSON.to_string ex_conventions
          (JSON.AddAll ex_table_heap (JSON.new 4) (example_calls ex_u ex_u ex_u)).1 (0 + 1)
          (JSON.AddAll ex_table_heap (JSON.new 4) (example_calls ex_u ex_u ex_u)).2
        = some "\x7b\"ok\":true,\"n\":42,\"s\":true\x7d"
    ∧ JSON.to_string ex_conventions
          (JSON.AddAll ex_table_heap (JSON.new 4) (example_calls ex_u ex_u ex_u)).1 (0 + 1)
          (JSON.AddAll ex_table_heap (JSON.new 4) (example_calls ex_u ex_u ex_u)).2
        ≠ some "\x7b\"ok\":true,\"n\":42,\"s\":\"hi\"\x7d" :=
  ⟨fun _ => rfl, by decide,
    C16_literal_stored_as_bool ex_conventions (fun _ => rfl) ex_table_heap 4 [] ex_u ex_u ex_u 0
      (by decide)⟩

end JSON
